import Mathlib

/-!
Shallow embedding of the `fastcpy` crate (`src/lib.rs`) and verification of
its specification.

The crate exposes a single operation, `slice_copy(src, dst)`, which copies the
bytes of `src` into `dst` (equal lengths required), dispatching by length to a
short-copy routine, the "double copy trick" with various window sizes, or a
bulk `memcpy` fallback.

Modelling choices:
  - A byte slice is a `List Nat` (byte values are never inspected, only moved).
  - Every raw-pointer `copy_nonoverlapping` is embedded as an explicit list of
    single-byte write events (`WriteEvent`), so that "which bytes are written,
    in which order, with which values" is observable; the final destination is
    obtained by folding the events over the initial destination with `List.set`
    (`applyWrites`).  An out-of-range `List.set` is a no-op, mirroring the fact
    that the Rust code must never actually write out of bounds; the in-bounds
    side conditions are proved separately.
  - The `#[cfg(target_feature = "avx")]` block is compile-time configuration;
    it is modelled by a `Bool` parameter `avx` that is fixed for a given build
    and threaded through `slice_copy`.
  - The Rust function diverges (panics) on a length mismatch; the model returns
    `Except CopyError`, where `CopyError.LengthMismatch` records the two
    `usize` arguments bound by `len_mismatch_fail(dst_len, src_len)`, in that
    order.
-/

namespace Fastcpy

/-- A single byte write: position in the destination and the value written. -/
structure WriteEvent where
  pos : Nat
  val : Nat
deriving DecidableEq, Repr

/-- Embedding of `core::ptr::copy_nonoverlapping(src_ptr.add sOff, dst_ptr.add dOff, size)`
on byte slices: the list of byte writes it performs, in order.  Reading out of
bounds yields a default byte `0`; the callers are proved to stay in bounds. -/
def copyNonoverlapping (src : List Nat) (sOff dOff size : Nat) : List WriteEvent :=
  (List.range size).map fun i => WriteEvent.mk (dOff + i) (src.getD (sOff + i) 0)

/-- Apply a list of byte writes to a destination buffer, in order.
`List.set` ignores out-of-range positions. -/
def applyWrites (dst : List Nat) (ws : List WriteEvent) : List Nat :=
  ws.foldl (fun d w => d.set w.pos w.val) dst

/-- Embedding of `double_copy_trick::<SIZE>(src, dst)` (src/lib.rs:97-109):
copy `SIZE` bytes from the front and `SIZE` bytes ending at `len`, where
`len = src.len()`; the second window starts at `len - SIZE` (Rust `usize`
subtraction; callers guarantee `SIZE <= len`, matching Nat truncation). -/
def double_copy_trick (SIZE : Nat) (src : List Nat) : List WriteEvent :=
  let len := src.length
  copyNonoverlapping src 0 0 SIZE ++
    copyNonoverlapping src (len - SIZE) (len - SIZE) SIZE

/-- Embedding of `short_copy(src, dst)` (src/lib.rs:74-91): for `len >= 4`
delegate to `double_copy_trick::<4>`; otherwise write `dst[0] = src[0]`
unconditionally and, when `len >= 2`, delegate to `double_copy_trick::<2>`. -/
def short_copy (src : List Nat) : List WriteEvent :=
  let len := src.length
  if 4 ≤ len then
    double_copy_trick 4 src
  else
    WriteEvent.mk 0 (src.getD 0 0) ::
      (if 2 ≤ len then double_copy_trick 2 src else [])

/-- Embedding of the bulk fallback (src/lib.rs:69-71):
`core::ptr::copy_nonoverlapping(src.as_ptr(), dst.as_mut_ptr(), src.len())`. -/
def bulk_copy (src : List Nat) : List WriteEvent :=
  copyNonoverlapping src 0 0 src.length

/-- The write trace of `slice_copy` for a non-empty source: the dispatch chain
of src/lib.rs:40-71 (`len < 8` short copy, `len <= 16` window 8, `len <= 32`
window 16, `len <= 64` window 32 when compiled with `avx`, else bulk copy). -/
def slice_copy_writes (avx : Bool) (src : List Nat) : List WriteEvent :=
  let len := src.length
  if len < 8 then short_copy src
  else if len ≤ 16 then double_copy_trick 8 src
  else if len ≤ 32 then double_copy_trick 16 src
  else if avx = true ∧ len ≤ 64 then double_copy_trick 32 src
  else bulk_copy src

/-- The single failure of the crate: the panic raised on a length mismatch.
Fields are named after the parameters of `len_mismatch_fail(dst_len, src_len)`
(src/lib.rs:25). -/
inductive CopyError where
  | LengthMismatch (dst_len src_len : Nat)
deriving DecidableEq, Repr

/-- Embedding of the inner function `len_mismatch_fail(dst_len: usize,
src_len: usize) -> !` (src/lib.rs:25-30): it diverges with an error carrying
its two arguments. -/
def len_mismatch_fail (dst_len src_len : Nat) : CopyError :=
  CopyError.LengthMismatch dst_len src_len

/-- Embedding of `slice_copy(src, dst)` (src/lib.rs:21-72).  The guard is
`if src.len() != dst.len() { len_mismatch_fail(src.len(), dst.len()); }` —
note the call site passes `src.len()` first, so it becomes the `dst_len`
argument.  Then the empty case returns, and otherwise the dispatched write
trace is applied to `dst`. -/
def slice_copy (avx : Bool) (src dst : List Nat) : Except CopyError (List Nat) :=
  if src.length ≠ dst.length then
    Except.error (len_mismatch_fail src.length dst.length)
  else if src.isEmpty then
    Except.ok dst
  else
    Except.ok (applyWrites dst (slice_copy_writes avx src))

/-- The list of `SIZE` arguments of the `double_copy_trick::<SIZE>` calls that
`short_copy` makes for a source of length `len`, mirroring its control flow
(src/lib.rs:78-89). -/
def short_copy_calls (len : Nat) : List Nat :=
  if 4 ≤ len then [4]
  else if 2 ≤ len then [2]
  else []

/-- The list of `SIZE` arguments of all `double_copy_trick::<SIZE>` calls made
(directly or through `short_copy`) by `slice_copy` on equal-length slices of
length `len`, mirroring its dispatch chain (src/lib.rs:37-71). -/
def slice_copy_calls (avx : Bool) (len : Nat) : List Nat :=
  if len = 0 then []
  else if len < 8 then short_copy_calls len
  else if len ≤ 16 then [8]
  else if len ≤ 32 then [16]
  else if avx = true ∧ len ≤ 64 then [32]
  else []

/-! ### Basic lemmas about write traces -/

theorem applyWrites_nil (dst : List Nat) : applyWrites dst [] = dst := rfl

theorem applyWrites_cons (dst : List Nat) (w : WriteEvent) (ws : List WriteEvent) :
    applyWrites dst (w :: ws) = applyWrites (dst.set w.pos w.val) ws := rfl

theorem applyWrites_append (dst : List Nat) (ws₁ ws₂ : List WriteEvent) :
    applyWrites dst (ws₁ ++ ws₂) = applyWrites (applyWrites dst ws₁) ws₂ :=
  List.foldl_append _ _ _ _

theorem applyWrites_length (dst : List Nat) (ws : List WriteEvent) :
    (applyWrites dst ws).length = dst.length := by
  induction ws generalizing dst with
  | nil => rfl
  | cons w ws ih =>
      rw [applyWrites_cons, ih, List.length_set]

theorem copyNonoverlapping_zero (src : List Nat) (sOff dOff : Nat) :
    copyNonoverlapping src sOff dOff 0 = [] := rfl

theorem copyNonoverlapping_succ (src : List Nat) (sOff dOff n : Nat) :
    copyNonoverlapping src sOff dOff (n + 1) =
      copyNonoverlapping src sOff dOff n ++
        [WriteEvent.mk (dOff + n) (src.getD (sOff + n) 0)] := by
  unfold copyNonoverlapping
  rw [List.range_succ, List.map_append, List.map_singleton]

theorem getD_set (l : List Nat) (p v i : Nat) :
    (l.set p v).getD i 0 =
      if p = i ∧ p < l.length then v else l.getD i 0 := by
  rw [List.getD_eq_getElem?_getD, List.getD_eq_getElem?_getD, List.getElem?_set]
  by_cases hpi : p = i
  · subst hpi
    by_cases hp : p < l.length
    · simp [hp]
    · have : l[p]? = none := by
        rw [List.getElem?_eq_none_iff]
        omega
      simp [hp, this]
  · simp [hpi]

/-- The value at position `i` after applying one `copyNonoverlapping` window:
inside the window `[dOff, dOff + n)` it is the corresponding source byte,
outside it is the old destination byte. -/
theorem applyWrites_copyNonoverlapping_getD (src dst : List Nat) (sOff dOff n i : Nat)
    (hn : dOff + n ≤ dst.length) :
    (applyWrites dst (copyNonoverlapping src sOff dOff n)).getD i 0 =
      if dOff ≤ i ∧ i < dOff + n then src.getD (sOff + (i - dOff)) 0
      else dst.getD i 0 := by
  induction n with
  | zero =>
      rw [copyNonoverlapping_zero, applyWrites_nil, if_neg]
      omega
  | succ n ih =>
      rw [copyNonoverlapping_succ, applyWrites_append]
      have hwin : dOff + n ≤ dst.length := by omega
      have hstep :
          applyWrites (applyWrites dst (copyNonoverlapping src sOff dOff n))
              [WriteEvent.mk (dOff + n) (src.getD (sOff + n) 0)] =
            (applyWrites dst (copyNonoverlapping src sOff dOff n)).set (dOff + n)
              (src.getD (sOff + n) 0) := rfl
      rw [hstep, getD_set, applyWrites_length]
      by_cases hi : dOff + n = i
      · rw [if_pos ⟨hi, by omega⟩, if_pos (by omega)]
        have : sOff + (i - dOff) = sOff + n := by omega
        rw [this]
      · rw [if_neg (by omega), ih hwin]
        by_cases hin : dOff ≤ i ∧ i < dOff + n
        · rw [if_pos hin, if_pos (by omega)]
        · rw [if_neg hin, if_neg (by omega)]

/-! ### Correctness of the individual strategies -/

/-- The double copy trick is a full copy whenever `SIZE ≤ len ≤ 2 * SIZE`. -/
theorem double_copy_trick_eq (SIZE : Nat) (src dst : List Nat)
    (hlen : src.length = dst.length) (hlo : SIZE ≤ src.length)
    (hhi : src.length ≤ 2 * SIZE) :
    applyWrites dst (double_copy_trick SIZE src) = src := by
  apply List.ext_getElem
  · rw [applyWrites_length, hlen]
  · intro i h₁ h₂
    have hi : i < dst.length := by
      have h := h₁
      rwa [applyWrites_length] at h
    rw [← List.getD_eq_getElem _ 0 h₁, ← List.getD_eq_getElem _ 0 h₂]
    unfold double_copy_trick
    rw [applyWrites_append,
      applyWrites_copyNonoverlapping_getD _ _ _ _ _ _
        (by rw [applyWrites_length]; omega),
      applyWrites_copyNonoverlapping_getD _ _ _ _ _ _ (by omega)]
    by_cases hsuf : src.length - SIZE ≤ i ∧ i < src.length - SIZE + SIZE
    · rw [if_pos hsuf]
      have : src.length - SIZE + (i - (src.length - SIZE)) = i := by omega
      rw [this]
    · rw [if_neg hsuf, if_pos (by omega)]
      have : 0 + (i - 0) = i := by omega
      rw [this]

/-- The bulk fallback copies every byte. -/
theorem bulk_copy_eq (src dst : List Nat) (hlen : src.length = dst.length) :
    applyWrites dst (bulk_copy src) = src := by
  apply List.ext_getElem
  · rw [applyWrites_length, hlen]
  · intro i h₁ h₂
    have hi : i < dst.length := by
      have h := h₁
      rwa [applyWrites_length] at h
    rw [← List.getD_eq_getElem _ 0 h₁, ← List.getD_eq_getElem _ 0 h₂]
    unfold bulk_copy
    rw [applyWrites_copyNonoverlapping_getD _ _ _ _ _ _ (by omega),
      if_pos (by omega)]
    have : 0 + (i - 0) = i := by omega
    rw [this]

/-- `short_copy` copies every byte for lengths 1 through 7. -/
theorem short_copy_eq (src dst : List Nat) (hlen : src.length = dst.length)
    (h1 : 1 ≤ src.length) (h7 : src.length ≤ 7) :
    applyWrites dst (short_copy src) = src := by
  unfold short_copy
  by_cases h4 : 4 ≤ src.length
  · rw [if_pos h4]
    exact double_copy_trick_eq 4 src dst hlen h4 (by omega)
  · rw [if_neg h4, applyWrites_cons]
    by_cases h2 : 2 ≤ src.length
    · rw [if_pos h2]
      exact double_copy_trick_eq 2 src _ (by rw [List.length_set]; exact hlen)
        h2 (by omega)
    · rw [if_neg h2, applyWrites_nil]
      apply List.ext_getElem
      · rw [List.length_set, hlen]
      · intro i hi₁ hi₂
        rw [List.length_set] at hi₁
        have hi0 : i = 0 := by omega
        subst hi0
        rw [List.getElem_set, if_pos rfl, List.getD_eq_getElem _ 0 hi₂]

/-- `slice_copy` on equal-length slices always succeeds and yields exactly the
source bytes. -/
theorem slice_copy_eq_ok (avx : Bool) (src dst : List Nat)
    (hlen : src.length = dst.length) :
    slice_copy avx src dst = Except.ok src := by
  unfold slice_copy
  rw [if_neg (by omega)]
  by_cases he : src.isEmpty
  · rw [if_pos he]
    have hsrc : src = [] := List.isEmpty_iff.mp he
    subst hsrc
    have : dst = [] := by
      cases dst with
      | nil => rfl
      | cons a l => simp at hlen
    rw [this]
  · rw [if_neg he]
    have h1 : 1 ≤ src.length := by
      cases src with
      | nil => simp at he
      | cons a l => simp
    unfold slice_copy_writes
    by_cases hb1 : src.length < 8
    · rw [if_pos hb1, short_copy_eq src dst hlen h1 (by omega)]
    · rw [if_neg hb1]
      by_cases hb2 : src.length ≤ 16
      · rw [if_pos hb2, double_copy_trick_eq 8 src dst hlen (by omega) (by omega)]
      · rw [if_neg hb2]
        by_cases hb3 : src.length ≤ 32
        · rw [if_pos hb3,
            double_copy_trick_eq 16 src dst hlen (by omega) (by omega)]
        · rw [if_neg hb3]
          by_cases hb4 : avx = true ∧ src.length ≤ 64
          · rw [if_pos hb4,
              double_copy_trick_eq 32 src dst hlen (by omega) (by omega)]
          · rw [if_neg hb4, bulk_copy_eq src dst hlen]

/-! ### Write positions, written values, and write counts -/

theorem copyNonoverlapping_pos (src : List Nat) (sOff dOff n : Nat) (w : WriteEvent)
    (hw : w ∈ copyNonoverlapping src sOff dOff n) :
    dOff ≤ w.pos ∧ w.pos < dOff + n := by
  unfold copyNonoverlapping at hw
  rw [List.mem_map] at hw
  obtain ⟨i, hi, hw⟩ := hw
  rw [List.mem_range] at hi
  subst hw
  show dOff ≤ dOff + i ∧ dOff + i < dOff + n
  omega

theorem copyNonoverlapping_val (src : List Nat) (off n : Nat) (w : WriteEvent)
    (hw : w ∈ copyNonoverlapping src off off n) :
    w.val = src.getD w.pos 0 := by
  unfold copyNonoverlapping at hw
  rw [List.mem_map] at hw
  obtain ⟨i, hi, hw⟩ := hw
  subst hw
  rfl

theorem double_copy_trick_pos (SIZE : Nat) (src : List Nat)
    (hS : SIZE ≤ src.length) (w : WriteEvent)
    (hw : w ∈ double_copy_trick SIZE src) : w.pos < src.length := by
  unfold double_copy_trick at hw
  rw [List.mem_append] at hw
  rcases hw with hw | hw
  · have h := copyNonoverlapping_pos src 0 0 SIZE w hw
    omega
  · have h := copyNonoverlapping_pos src _ _ SIZE w hw
    omega

theorem double_copy_trick_val (SIZE : Nat) (src : List Nat) (w : WriteEvent)
    (hw : w ∈ double_copy_trick SIZE src) : w.val = src.getD w.pos 0 := by
  unfold double_copy_trick at hw
  rw [List.mem_append] at hw
  rcases hw with hw | hw
  · exact copyNonoverlapping_val src 0 SIZE w hw
  · exact copyNonoverlapping_val src _ SIZE w hw

theorem short_copy_pos (src : List Nat) (h1 : 1 ≤ src.length) (w : WriteEvent)
    (hw : w ∈ short_copy src) : w.pos < src.length := by
  unfold short_copy at hw
  by_cases h4 : 4 ≤ src.length
  · rw [if_pos h4] at hw
    exact double_copy_trick_pos 4 src h4 w hw
  · rw [if_neg h4] at hw
    rcases List.mem_cons.mp hw with hw | hw
    · subst hw
      exact h1
    · by_cases h2 : 2 ≤ src.length
      · rw [if_pos h2] at hw
        exact double_copy_trick_pos 2 src h2 w hw
      · rw [if_neg h2] at hw
        exact absurd hw (List.not_mem_nil w)

theorem slice_copy_writes_pos (avx : Bool) (src : List Nat) (h1 : 1 ≤ src.length)
    (w : WriteEvent) (hw : w ∈ slice_copy_writes avx src) : w.pos < src.length := by
  unfold slice_copy_writes at hw
  by_cases hb1 : src.length < 8
  · rw [if_pos hb1] at hw
    exact short_copy_pos src h1 w hw
  · rw [if_neg hb1] at hw
    by_cases hb2 : src.length ≤ 16
    · rw [if_pos hb2] at hw
      exact double_copy_trick_pos 8 src (by omega) w hw
    · rw [if_neg hb2] at hw
      by_cases hb3 : src.length ≤ 32
      · rw [if_pos hb3] at hw
        exact double_copy_trick_pos 16 src (by omega) w hw
      · rw [if_neg hb3] at hw
        by_cases hb4 : avx = true ∧ src.length ≤ 64
        · rw [if_pos hb4] at hw
          exact double_copy_trick_pos 32 src (by omega) w hw
        · rw [if_neg hb4] at hw
          have h := copyNonoverlapping_pos src 0 0 src.length w hw
          omega

theorem countP_pos_singleton (p v i : Nat) :
    List.countP (fun w => w.pos == i) [WriteEvent.mk p v] =
      if p = i then 1 else 0 := by
  rw [List.countP_singleton]
  by_cases h : p = i
  · rw [if_pos h, if_pos (by simpa using h)]
  · rw [if_neg h, if_neg (by simpa using h)]

theorem copyNonoverlapping_countP (src : List Nat) (sOff dOff n i : Nat) :
    (copyNonoverlapping src sOff dOff n).countP (fun w => w.pos == i) =
      if dOff ≤ i ∧ i < dOff + n then 1 else 0 := by
  induction n with
  | zero =>
      rw [copyNonoverlapping_zero, List.countP_nil, if_neg]
      omega
  | succ n ih =>
      rw [copyNonoverlapping_succ, List.countP_append, ih, countP_pos_singleton]
      split_ifs <;> omega

/-! ### Claim theorems -/

/-- Claim C1: for every pair of byte slices `src` and `dst` with equal length
`N ≥ 0`, `slice_copy` terminates successfully and afterwards `dst` is a
byte-for-byte copy of `src`; moreover every write event it would apply lands
inside `[0, N)`, so no memory outside `dst[0..N]` is changed (`src` is a
read-only input of the model and thus unmodified by construction). -/
theorem slice_copy_correct (avx : Bool) (src dst : List Nat)
    (hlen : src.length = dst.length) :
    slice_copy avx src dst = Except.ok src ∧
      (1 ≤ src.length →
        ∀ w ∈ slice_copy_writes avx src, w.pos < src.length) := by
  constructor
  · exact slice_copy_eq_ok avx src dst hlen
  · intro h1 w hw
    exact slice_copy_writes_pos avx src h1 w hw

/-- Witness for C1 at `src = [1,2,3,4,5]`, `dst = [9,9,9,9,9]`. -/
theorem slice_copy_correct_witness :
    slice_copy false [1, 2, 3, 4, 5] [9, 9, 9, 9, 9] =
      Except.ok [1, 2, 3, 4, 5] :=
  (slice_copy_correct false [1, 2, 3, 4, 5] [9, 9, 9, 9, 9] (by decide)).1

/-- Claim C2 as frozen is false: it requires only `len ≥ W`, but for
`W = 2` and `src = [1,1,1,1,1]` (`len = 5 > 2 * W`) the middle byte `dst[2]`
is never written, so the copy is not complete. -/
theorem double_copy_trick_not_full_cover :
    2 ≤ ([1, 1, 1, 1, 1] : List Nat).length ∧
      applyWrites [0, 0, 0, 0, 0] (double_copy_trick 2 [1, 1, 1, 1, 1]) ≠
        [1, 1, 1, 1, 1] := by
  decide

/-- Claim C2 (amended with `len ≤ 2 * W`, which every call site guarantees):
for `W ≤ len ≤ 2 * W`, `double_copy_trick` performs exactly two `W`-byte
copies — `src[0..W]` to `dst[0..W]` and `src[len-W..len]` to
`dst[len-W..len]` — every byte of `dst` in `[0, len)` ends up with the correct
source value, every individual write carries the source byte of the position
it writes, and every position in the overlap `[len - W, W)` is written exactly
twice. -/
theorem double_copy_trick_spec (W : Nat) (src dst : List Nat)
    (hlen : src.length = dst.length) (hlo : W ≤ src.length)
    (hhi : src.length ≤ 2 * W) :
    double_copy_trick W src =
        copyNonoverlapping src 0 0 W ++
          copyNonoverlapping src (src.length - W) (src.length - W) W ∧
      applyWrites dst (double_copy_trick W src) = src ∧
      (∀ w ∈ double_copy_trick W src, w.val = src.getD w.pos 0) ∧
      ∀ i, src.length - W ≤ i → i < W →
        (double_copy_trick W src).countP (fun w => w.pos == i) = 2 := by
  refine ⟨rfl, double_copy_trick_eq W src dst hlen hlo hhi, ?_, ?_⟩
  · intro w hw
    exact double_copy_trick_val W src w hw
  · intro i hil hiu
    unfold double_copy_trick
    rw [List.countP_append, copyNonoverlapping_countP, copyNonoverlapping_countP,
      if_pos (by omega), if_pos (by omega)]

/-- Witness for C2 (amended) at `W = 4`, `src = [1,2,3,4,5,6]`,
`dst = [0,0,0,0,0,0]`. -/
theorem double_copy_trick_spec_witness :
    applyWrites [0, 0, 0, 0, 0, 0] (double_copy_trick 4 [1, 2, 3, 4, 5, 6]) =
      [1, 2, 3, 4, 5, 6] :=
  (double_copy_trick_spec 4 [1, 2, 3, 4, 5, 6] [0, 0, 0, 0, 0, 0]
    (by decide) (by decide) (by decide)).2.1

/-- Claim C6: for equal-length slices with `1 ≤ len ≤ 7`, `short_copy`
delegates to `double_copy_trick` with window 4 when `len ≥ 4`; otherwise it
first writes `dst[0] = src[0]` unconditionally and then, exactly when
`len ≥ 2`, delegates to `double_copy_trick` with window 2 — and the resulting
`dst` equals `src`. -/
theorem short_copy_spec (src dst : List Nat) (hlen : src.length = dst.length)
    (h1 : 1 ≤ src.length) (h7 : src.length ≤ 7) :
    (4 ≤ src.length → short_copy src = double_copy_trick 4 src) ∧
      (src.length ≤ 3 → short_copy src =
        WriteEvent.mk 0 (src.getD 0 0) ::
          (if 2 ≤ src.length then double_copy_trick 2 src else [])) ∧
      applyWrites dst (short_copy src) = src := by
  refine ⟨?_, ?_, short_copy_eq src dst hlen h1 h7⟩
  · intro h4
    unfold short_copy
    rw [if_pos h4]
  · intro h3
    unfold short_copy
    rw [if_neg (by omega)]

/-- Witness for C6 at `src = [1,2,3]`, `dst = [0,0,0]`. -/
theorem short_copy_spec_witness :
    applyWrites [0, 0, 0] (short_copy [1, 2, 3]) = [1, 2, 3] :=
  (short_copy_spec [1, 2, 3] [0, 0, 0] (by decide) (by decide) (by decide)).2.2

/-- Claim C7: on two empty slices `slice_copy` succeeds as a no-op — it
returns the destination unchanged, and in the model the empty branch returns
`dst` directly without applying any write event. -/
theorem slice_copy_empty_noop (avx : Bool) :
    slice_copy avx [] [] = Except.ok [] := rfl

/-- Claim C3: for equal-length inputs of length `N ≥ 1`, `slice_copy` applies
the dispatched write trace to `dst`, and the dispatch follows the bracket
table exactly: lengths 1–7 use `short_copy`, 8–16 use `double_copy_trick`
with window 8, 17–32 window 16, 33–64 window 32 exactly when the build has
`avx` (and the bulk fallback otherwise), and lengths ≥ 65 always use the bulk
fallback.  The `avx` flag is a build-configuration parameter of the model,
fixed across calls, not a per-call runtime input. -/
theorem slice_copy_dispatch (avx : Bool) (src dst : List Nat) :
    (src.length = dst.length → 1 ≤ src.length →
      slice_copy avx src dst =
        Except.ok (applyWrites dst (slice_copy_writes avx src))) ∧
      (1 ≤ src.length → src.length ≤ 7 →
        slice_copy_writes avx src = short_copy src) ∧
      (8 ≤ src.length → src.length ≤ 16 →
        slice_copy_writes avx src = double_copy_trick 8 src) ∧
      (17 ≤ src.length → src.length ≤ 32 →
        slice_copy_writes avx src = double_copy_trick 16 src) ∧
      (33 ≤ src.length → src.length ≤ 64 → avx = true →
        slice_copy_writes avx src = double_copy_trick 32 src) ∧
      (33 ≤ src.length → src.length ≤ 64 → avx = false →
        slice_copy_writes avx src = bulk_copy src) ∧
      (65 ≤ src.length → slice_copy_writes avx src = bulk_copy src) := by
  refine ⟨?_, ?_, ?_, ?_, ?_, ?_, ?_⟩
  · intro hlen h1
    have hne : ¬ src.isEmpty = true := by
      rw [List.isEmpty_iff]
      intro h
      subst h
      simp at h1
    unfold slice_copy
    rw [if_neg (by omega), if_neg hne]
  · intro h1 h7
    unfold slice_copy_writes
    rw [if_pos (by omega)]
  · intro h8 h16
    unfold slice_copy_writes
    rw [if_neg (by omega), if_pos (by omega)]
  · intro h17 h32
    unfold slice_copy_writes
    rw [if_neg (by omega), if_neg (by omega), if_pos (by omega)]
  · intro h33 h64 ha
    subst ha
    unfold slice_copy_writes
    rw [if_neg (by omega), if_neg (by omega), if_neg (by omega),
      if_pos ⟨rfl, by omega⟩]
  · intro h33 h64 ha
    subst ha
    unfold slice_copy_writes
    rw [if_neg (by omega), if_neg (by omega), if_neg (by omega), if_neg]
    simp
  · intro h65
    unfold slice_copy_writes
    rw [if_neg (by omega), if_neg (by omega), if_neg (by omega),
      if_neg (by omega)]

/-- Witness for C3 at a source of length 20 (the 17–32 bracket). -/
theorem slice_copy_dispatch_witness :
    slice_copy_writes false (List.replicate 20 7) =
      double_copy_trick 16 (List.replicate 20 7) :=
  (slice_copy_dispatch false (List.replicate 20 7) []).2.2.2.1
    (by decide) (by decide)

/-- Claim C4: `slice_copy` fails exactly when the two lengths differ, the only
possible error is the length-mismatch one, and on failure no new destination
is produced (the model returns the error before any write trace is applied,
so `dst` is untouched). -/
theorem slice_copy_error_iff (avx : Bool) (src dst : List Nat) :
    ((∃ e, slice_copy avx src dst = Except.error e) ↔
        src.length ≠ dst.length) ∧
      (src.length ≠ dst.length →
        slice_copy avx src dst =
          Except.error (len_mismatch_fail src.length dst.length)) := by
  by_cases h : src.length = dst.length
  · refine ⟨⟨?_, ?_⟩, ?_⟩
    · rintro ⟨e, he⟩
      rw [slice_copy_eq_ok avx src dst h] at he
      exact absurd he (by simp)
    · intro hne
      exact absurd h hne
    · intro hne
      exact absurd h hne
  · have herr : slice_copy avx src dst =
        Except.error (len_mismatch_fail src.length dst.length) := by
      unfold slice_copy
      rw [if_pos h]
    exact ⟨⟨fun _ => h, fun _ => ⟨_, herr⟩⟩, fun _ => herr⟩

/-- Witness for C4 at `src = [0]` (length 1), `dst = []` (length 0). -/
theorem slice_copy_error_iff_witness :
    slice_copy false [0] [] = Except.error (len_mismatch_fail 1 0) :=
  (slice_copy_error_iff false [0] []).2 (by decide)

/-- Claim C5 fails on the code: at `src = [7]` (length 1), `dst = [7,7]`
(length 2) the call site `len_mismatch_fail(src.len(), dst.len())`
(src/lib.rs:33) binds `dst_len := src.len() = 1` and `src_len := dst.len()
= 2`, because the signature of `len_mismatch_fail` (src/lib.rs:25) is
`(dst_len, src_len)` — the arguments are swapped with respect to the
parameter names and the panic message, so the value reported as the
destination length is `len(src)`, not `len(dst)`. -/
theorem slice_copy_mismatch_payload :
    slice_copy false [7] [7, 7] =
      Except.error (CopyError.LengthMismatch 1 2) := rfl

/-- Claim C8: `slice_copy` is idempotent — if one call on equal-length slices
produced destination contents `d₁`, calling it again with the same source on
that destination yields exactly `d₁` again. -/
theorem slice_copy_idempotent (avx : Bool) (src dst d₁ : List Nat)
    (hlen : src.length = dst.length)
    (h : slice_copy avx src dst = Except.ok d₁) :
    slice_copy avx src d₁ = Except.ok d₁ := by
  have h1 := slice_copy_eq_ok avx src dst hlen
  rw [h] at h1
  have hd : d₁ = src := by
    injection h1
  subst hd
  exact slice_copy_eq_ok avx d₁ d₁ rfl

/-- Witness for C8 at `src = [5,6]`, `dst = [0,0]`. -/
theorem slice_copy_idempotent_witness :
    slice_copy false [5, 6] [5, 6] = Except.ok [5, 6] :=
  slice_copy_idempotent false [5, 6] [0, 0] [5, 6] (by decide) rfl

/-- Claim C9: every `double_copy_trick` window size `s` that `slice_copy` or
`short_copy` passes for a given length satisfies `s ≤ len`, so `len - s`
never underflows (`len - s + s = len` in truncating subtraction) and both the
prefix window `[0, s)` and the suffix window `[len - s, len)` lie inside the
slices; for `len = 1`, `short_copy` makes no `double_copy_trick` call at
all. -/
theorem double_copy_trick_calls_safe (avx : Bool) (len : Nat) :
    (∀ s ∈ slice_copy_calls avx len, s ≤ len ∧ len - s + s = len) ∧
      (∀ s ∈ short_copy_calls len, s ≤ len ∧ len - s + s = len) ∧
      short_copy_calls 1 = [] := by
  have hshort : ∀ s ∈ short_copy_calls len, s ≤ len ∧ len - s + s = len := by
    intro s hs
    unfold short_copy_calls at hs
    by_cases h4 : 4 ≤ len
    · rw [if_pos h4, List.mem_singleton] at hs
      omega
    · rw [if_neg h4] at hs
      by_cases h2 : 2 ≤ len
      · rw [if_pos h2, List.mem_singleton] at hs
        omega
      · rw [if_neg h2] at hs
        exact absurd hs (List.not_mem_nil s)
  refine ⟨?_, hshort, rfl⟩
  intro s hs
  unfold slice_copy_calls at hs
  by_cases h0 : len = 0
  · rw [if_pos h0] at hs
    exact absurd hs (List.not_mem_nil s)
  · rw [if_neg h0] at hs
    by_cases hb1 : len < 8
    · rw [if_pos hb1] at hs
      exact hshort s hs
    · rw [if_neg hb1] at hs
      by_cases hb2 : len ≤ 16
      · rw [if_pos hb2, List.mem_singleton] at hs
        omega
      · rw [if_neg hb2] at hs
        by_cases hb3 : len ≤ 32
        · rw [if_pos hb3, List.mem_singleton] at hs
          omega
        · rw [if_neg hb3] at hs
          by_cases hb4 : avx = true ∧ len ≤ 64
          · rw [if_pos hb4, List.mem_singleton] at hs
            omega
          · rw [if_neg hb4] at hs
            exact absurd hs (List.not_mem_nil s)

/-- Witness for C9 at the window size 8 passed for length 10. -/
theorem double_copy_trick_calls_safe_witness :
    8 ∈ slice_copy_calls false 10 ∧ (8 ≤ 10 ∧ 10 - 8 + 8 = 10) :=
  ⟨by decide, (double_copy_trick_calls_safe false 10).1 8 (by decide)⟩

/-- Claim C10: for equal-length slices with `33 ≤ len ≤ 64`, the result of
`slice_copy` is the same whether or not the `avx` bracket is compiled in —
the window-32 double copy and the bulk fallback produce identical
destination contents. -/
theorem slice_copy_avx_agnostic (src dst : List Nat)
    (hlen : src.length = dst.length) (_h33 : 33 ≤ src.length)
    (_h64 : src.length ≤ 64) :
    slice_copy true src dst = slice_copy false src dst := by
  rw [slice_copy_eq_ok true src dst hlen, slice_copy_eq_ok false src dst hlen]

/-- Witness for C10 at slices of length 33. -/
theorem slice_copy_avx_agnostic_witness :
    slice_copy true (List.replicate 33 1) (List.replicate 33 0) =
      slice_copy false (List.replicate 33 1) (List.replicate 33 0) :=
  slice_copy_avx_agnostic (List.replicate 33 1) (List.replicate 33 0)
    (by decide) (by decide) (by decide)

end Fastcpy
